import Mathlib

/-!
Verification development for the Resolution Lab adaptive strategy-selection
engine: the fixed 8-strategy catalog, the composite reward calculator, the
per-user strategy statistics aggregate, the exploring/optimizing phase rule,
the epsilon-greedy bandit policy, the outcomes database schema, and the
frontend ranking of strategy results.

Numeric quantities that the sources compute in floating point are embedded
as rationals, so every definition is executable and every arithmetic fact
exact.
-/

namespace ResolutionLab

/-- Strategy identifiers of the fixed catalog, in the catalog order of
`src/frontend/src/types/index.ts` (`InterventionStrategy`) and of the
strategy table in `src/resolution-lab-project-plan.md`. -/
inductive Strategy where
  | gentle_reminder
  | accountability
  | streak_gamification
  | social_comparison
  | loss_aversion
  | reward_preview
  | identity_reinforcement
  | micro_commitment
deriving DecidableEq, Repr

open Strategy

/-- Fixed ordered catalog of the 8 strategies. -/
def catalog : List Strategy :=
  [gentle_reminder, accountability, streak_gamification, social_comparison,
   loss_aversion, reward_preview, identity_reinforcement, micro_commitment]

/-- Catalog indexed by `Fin 8`. -/
def catalogGet (u : Fin 8) : Strategy :=
  catalog.get ⟨u.val, u.isLt⟩

/-- User sentiment labels, from `UserSentiment` in
`src/frontend/src/types/index.ts` and the judge output in the plan. -/
inductive UserSentiment where
  | positive
  | neutral
  | negative
deriving DecidableEq, Repr

/-- Sentiment lookup table of `intervention_effectiveness_score`
(`src/resolution-lab-project-plan.md`, line 115):
`{"positive": 1.0, "neutral": 0.5, "negative": 0.0}[user_sentiment]`. -/
def sentimentTable : UserSentiment → ℚ
  | .positive => 1
  | .neutral => 0.5
  | .negative => 0

/-- Composite reward, from `intervention_effectiveness_score` in
`src/resolution-lab-project-plan.md`, lines 101-117: 60% completion,
20% speed (decaying over one hour), 20% sentiment. -/
def intervention_effectiveness_score (user_completed_goal : Bool)
    (response_time_seconds : ℚ) (user_sentiment : UserSentiment) : ℚ :=
  let completion_score : ℚ := if user_completed_goal then 1.0 else 0.0
  let speed_score : ℚ := max 0 (1 - response_time_seconds / 3600)
  let sentiment_score : ℚ := sentimentTable user_sentiment
  0.6 * completion_score + 0.2 * speed_score + 0.2 * sentiment_score

/-- Helper: the speed component lies in `[0, 1]` for a nonnegative
response time. -/
lemma speed_score_bounds (t : ℚ) (ht : 0 ≤ t) :
    0 ≤ max 0 (1 - t / 3600) ∧ max 0 (1 - t / 3600) ≤ 1 := by
  constructor
  · exact le_max_left 0 _
  · have h : t / 3600 ≥ 0 := by positivity
    have : 1 - t / 3600 ≤ 1 := by linarith
    exact max_le (by norm_num) this

/-- Helper: the sentiment component lies in `[0, 1]`. -/
lemma sentimentTable_bounds (s : UserSentiment) :
    0 ≤ sentimentTable s ∧ sentimentTable s ≤ 1 := by
  cases s <;> norm_num [sentimentTable]

/-- Helper: the reward always lies in `[0, 1]` for a nonnegative response
time; shared by several claim theorems. -/
lemma reward_bounds (c : Bool) (t : ℚ) (s : UserSentiment) (ht : 0 ≤ t) :
    0 ≤ intervention_effectiveness_score c t s ∧
      intervention_effectiveness_score c t s ≤ 1 := by
  obtain ⟨hs0, hs1⟩ := speed_score_bounds t ht
  obtain ⟨hm0, hm1⟩ := sentimentTable_bounds s
  unfold intervention_effectiveness_score
  cases c <;> simp only [if_true, if_false, Bool.false_eq_true] <;>
    constructor <;> norm_num <;> nlinarith

/-- Per-user running aggregate for one strategy, mirroring the columns of
the `user_strategy_stats` table in `src/resolution-lab-project-plan.md`
(lines 488-498 and 1395-1405). -/
structure StrategyStat where
  total_interventions : Nat
  successful_completions : Nat
  avg_response_time_seconds : ℚ
  effectiveness_score : ℚ
deriving DecidableEq, Repr

/-- Zero-state aggregate for a (user, strategy) pair with no history
(table defaults: counters 0, effectiveness_score 0.0). -/
def zeroStat : StrategyStat :=
  { total_interventions := 0
    successful_completions := 0
    avg_response_time_seconds := 0
    effectiveness_score := 0 }

/-- One outcome observation: completion flag, response time in seconds,
and judged sentiment. -/
structure Observation where
  completed : Bool
  response_time_seconds : ℚ
  sentiment : UserSentiment
deriving DecidableEq, Repr

/-- Reward attributed to one observation, via the composite score. -/
def obsReward (o : Observation) : ℚ :=
  intervention_effectiveness_score o.completed o.response_time_seconds o.sentiment

/-- Modelled from the spec: `StrategyStatsStore.update` (spec section 4.3);
the backend service holding this code (`services/experiment_engine.py`) is
not under `src/`. `pulls += 1`; `successes += 1 if completed`; the mean
response time and the effectiveness score are updated as cumulative means
`new_mean = old_mean + (new_value - old_mean) / pulls`. -/
def statUpdate (st : StrategyStat) (o : Observation) : StrategyStat :=
  let pulls : Nat := st.total_interventions + 1
  let reward : ℚ := obsReward o
  { total_interventions := pulls
    successful_completions :=
      st.successful_completions + (if o.completed then 1 else 0)
    avg_response_time_seconds :=
      st.avg_response_time_seconds +
        (o.response_time_seconds - st.avg_response_time_seconds) / (pulls : ℚ)
    effectiveness_score :=
      st.effectiveness_score + (reward - st.effectiveness_score) / (pulls : ℚ) }

/-- Applies a whole list of observations to an aggregate, oldest first. -/
def applyAll (st : StrategyStat) (l : List Observation) : StrategyStat :=
  l.foldl statUpdate st

/-- Helper: `statUpdate` adds one pull and adds the reward to the score
total (score times pulls). -/
lemma statUpdate_score (st : StrategyStat) (o : Observation) :
    (statUpdate st o).total_interventions = st.total_interventions + 1 ∧
      (statUpdate st o).effectiveness_score *
          ((st.total_interventions : ℚ) + 1) =
        st.effectiveness_score * (st.total_interventions : ℚ) + obsReward o := by
  refine ⟨rfl, ?_⟩
  have hne : ((st.total_interventions : ℚ) + 1) ≠ 0 := by positivity
  field_simp [statUpdate]
  ring

/-- Helper: after folding a list of observations, the pull count grows by
the list length and the score total grows by the summed rewards. -/
lemma applyAll_score (l : List Observation) : ∀ st : StrategyStat,
    (applyAll st l).total_interventions = st.total_interventions + l.length ∧
      (applyAll st l).effectiveness_score *
          ((st.total_interventions : ℚ) + l.length) =
        st.effectiveness_score * (st.total_interventions : ℚ) +
          (l.map obsReward).sum := by
  induction l with
  | nil => intro st; simp [applyAll]
  | cons o t ih =>
    intro st
    obtain ⟨hp, hs⟩ := ih (statUpdate st o)
    obtain ⟨hp1, hs1⟩ := statUpdate_score st o
    refine ⟨?_, ?_⟩
    · simp only [applyAll, List.foldl_cons, List.length_cons] at hp ⊢
      rw [hp, hp1]
      omega
    · simp only [applyAll, List.foldl_cons, List.length_cons,
        List.map_cons, List.sum_cons] at hs ⊢
      rw [hp1] at hs
      push_cast at hs ⊢
      linear_combination hs + hs1

/-- Helper: from the zero state, the stored effectiveness score is the
arithmetic mean of all observed rewards (with the empty mean read as 0). -/
lemma applyAll_mean (l : List Observation) :
    (applyAll zeroStat l).effectiveness_score =
      (l.map obsReward).sum / (l.length : ℚ) := by
  obtain ⟨hp, hs⟩ := applyAll_score l zeroStat
  simp only [zeroStat] at hp hs
  rcases Nat.eq_zero_or_pos l.length with h0 | hpos
  · rcases List.length_eq_zero.mp h0 with rfl
    simp [applyAll, zeroStat]
  · have hne : ((l.length : ℚ)) ≠ 0 := by
      exact_mod_cast hpos.ne'
    rw [eq_div_iff hne]
    simpa using hs

/-- Experiment phase per (user, goal), from `experiment_phase` in
`src/frontend/src/types/index.ts`. -/
inductive ExperimentPhase where
  | exploring
  | optimizing
deriving DecidableEq, Repr

/-- Modelled from the spec: `MIN_EXPLORE_PULLS = 3` (spec section 4.1);
the backend bandit module holding this constant is not under `src/`. The
frontend help text in `src/frontend/src/app/experiment/page.tsx` states the
same: each of the 8 strategies is tried at least 3 times. -/
def MIN_EXPLORE_PULLS : Nat := 3

/-- Modelled from the spec: data-sufficiency threshold for entering the
optimizing phase (spec sections 4.4 and 8, Scenario A uses 20; the plan
text in `src/resolution-lab-project-plan.md` also asks for 10-20 check-ins
before reliable patterns). -/
def DATA_THRESHOLD : Nat := 20

/-- Per-(user, goal) snapshot: one aggregate per catalog strategy. -/
def Snapshot : Type := Strategy → StrategyStat

/-- Total pulls across all strategies of a snapshot. -/
def totalPulls (snap : Snapshot) : Nat :=
  (catalog.map fun s => (snap s).total_interventions).sum

/-- Modelled from the spec: `PhaseController` (spec section 4.4); the
backend service holding this code is not under `src/`. The phase is a pure
function of the snapshot: optimizing iff every catalog strategy has
`pulls >= MIN_EXPLORE_PULLS` and total pulls reach the data-sufficiency
threshold. -/
def experiment_phase (snap : Snapshot) : ExperimentPhase :=
  if (∀ s ∈ catalog, MIN_EXPLORE_PULLS ≤ (snap s).total_interventions) ∧
      DATA_THRESHOLD ≤ totalPulls snap then
    ExperimentPhase.optimizing
  else
    ExperimentPhase.exploring

/-- Applies one observation for one strategy to a snapshot. -/
def snapUpdate (snap : Snapshot) (s : Strategy) (o : Observation) : Snapshot :=
  fun t => if t = s then statUpdate (snap t) o else snap t

/-- Applies a list of (strategy, observation) updates to a snapshot. -/
def snapApply (snap : Snapshot) (ops : List (Strategy × Observation)) :
    Snapshot :=
  ops.foldl (fun sn p => snapUpdate sn p.1 p.2) snap

/-- Helper: one update never decreases any per-strategy pull count. -/
lemma snapUpdate_pulls_le (snap : Snapshot) (s : Strategy) (o : Observation)
    (t : Strategy) :
    (snap t).total_interventions ≤
      (snapUpdate snap s o t).total_interventions := by
  unfold snapUpdate
  by_cases h : t = s <;> simp [h, statUpdate]

/-- Helper: one update keeps the optimizing phase. -/
lemma snapUpdate_phase (snap : Snapshot) (s : Strategy) (o : Observation)
    (h : experiment_phase snap = ExperimentPhase.optimizing) :
    experiment_phase (snapUpdate snap s o) = ExperimentPhase.optimizing := by
  unfold experiment_phase at h ⊢
  split at h
  case isFalse => exact absurd h (by simp)
  case isTrue hc =>
    obtain ⟨hall, htot⟩ := hc
    have hall2 : ∀ t ∈ catalog,
        MIN_EXPLORE_PULLS ≤ (snapUpdate snap s o t).total_interventions :=
      fun t ht => le_trans (hall t ht) (snapUpdate_pulls_le snap s o t)
    have htot2 : DATA_THRESHOLD ≤ totalPulls (snapUpdate snap s o) := by
      refine le_trans htot ?_
      unfold totalPulls
      exact List.sum_le_sum fun t ht => snapUpdate_pulls_le snap s o t
    rw [if_pos ⟨hall2, htot2⟩]

/-- Modelled from the spec: `EPSILON` (spec section 4.1, a constant in
0.1-0.2); the backend bandit module is not under `src/`. The plan flow in
`src/resolution-lab-project-plan.md` (line 94) uses epsilon = 0.1. -/
def EPSILON : ℚ := 0.1

/-- Strict preference used by the exploitation branch comparison: strictly
higher effectiveness score, or equal score and strictly fewer pulls. -/
def betterStat (st : Snapshot) (c b : Strategy) : Bool :=
  decide ((st b).effectiveness_score < (st c).effectiveness_score ∨
    ((st c).effectiveness_score = (st b).effectiveness_score ∧
      (st c).total_interventions < (st b).total_interventions))

/-- Candidate with its catalog position: strict lexicographic preference of
`a` over `b` — higher score, then fewer pulls, then earlier catalog index. -/
def strictlyPreferred (st : Snapshot) (a b : Strategy × Nat) : Prop :=
  (st b.1).effectiveness_score < (st a.1).effectiveness_score ∨
    ((st a.1).effectiveness_score = (st b.1).effectiveness_score ∧
      ((st a.1).total_interventions < (st b.1).total_interventions ∨
        ((st a.1).total_interventions = (st b.1).total_interventions ∧
          a.2 < b.2)))

/-- Helper: strict preference is transitive. -/
lemma strictlyPreferred_trans (st : Snapshot) {a b c : Strategy × Nat}
    (hab : strictlyPreferred st a b) (hbc : strictlyPreferred st b c) :
    strictlyPreferred st a c := by
  unfold strictlyPreferred at *
  rcases hab with h1 | ⟨h1, h2⟩ <;> rcases hbc with g1 | ⟨g1, g2⟩
  · exact Or.inl (by linarith)
  · exact Or.inl (by linarith)
  · exact Or.inl (by linarith)
  · refine Or.inr ⟨by linarith, ?_⟩
    rcases h2 with h2 | ⟨h2, h3⟩ <;> rcases g2 with g2 | ⟨g2, g3⟩
    · exact Or.inl (by omega)
    · exact Or.inl (by omega)
    · exact Or.inl (by omega)
    · exact Or.inr ⟨by omega, by omega⟩

/-- Fold that keeps the preferred candidate, scanning in catalog order. -/
def pickFrom (st : Snapshot) (b : Strategy × Nat) :
    List (Strategy × Nat) → Strategy × Nat
  | [] => b
  | c :: l => pickFrom st (cond (betterStat st c.1 b.1) c b) l

/-- Helper: a won comparison yields strict preference of the challenger. -/
lemma betterStat_true_pref (st : Snapshot) (b c : Strategy × Nat)
    (h : betterStat st c.1 b.1 = true) : strictlyPreferred st c b := by
  have h2 := of_decide_eq_true h
  unfold strictlyPreferred
  rcases h2 with h2 | ⟨h2, h3⟩
  · exact Or.inl h2
  · exact Or.inr ⟨h2, Or.inl h3⟩

/-- Helper: a lost comparison yields strict preference of the incumbent,
given that the incumbent has the smaller catalog index. -/
lemma betterStat_false_pref (st : Snapshot) (b c : Strategy × Nat)
    (hidx : b.2 < c.2) (h : betterStat st c.1 b.1 = false) :
    strictlyPreferred st b c := by
  have h2 := of_decide_eq_false h
  push_neg at h2
  obtain ⟨hle, himp⟩ := h2
  unfold strictlyPreferred
  rcases lt_or_eq_of_le hle with hlt | heq
  · exact Or.inl hlt
  · refine Or.inr ⟨heq.symm, ?_⟩
    rcases lt_or_eq_of_le (himp heq) with hplt | hpeq
    · exact Or.inl hplt
    · exact Or.inr ⟨hpeq, hidx⟩

/-- Helper: the fold yields a candidate from the scanned list (or the
incumbent) that is strictly preferred to every other scanned candidate,
provided catalog indices strictly increase along the scan. -/
lemma pickFrom_spec (st : Snapshot) :
    ∀ (l : List (Strategy × Nat)) (b : Strategy × Nat),
      (∀ x ∈ l, b.2 < x.2) →
      l.Pairwise (fun x y => x.2 < y.2) →
      (pickFrom st b l = b ∨ pickFrom st b l ∈ l) ∧
        ∀ x ∈ b :: l, x ≠ pickFrom st b l →
          strictlyPreferred st (pickFrom st b l) x := by
  intro l
  induction l with
  | nil =>
    intro b _ _
    refine ⟨Or.inl rfl, ?_⟩
    intro x hx hne
    simp only [List.mem_singleton] at hx
    exact absurd hx hne
  | cons c t ih =>
    intro b hlt hpw
    have hbc : b.2 < c.2 := hlt c (List.mem_cons_self c t)
    have hct : ∀ x ∈ t, c.2 < x.2 := by
      intro x hx
      exact (List.pairwise_cons.mp hpw).1 x hx
    simp only [pickFrom]
    cases hb : betterStat st c.1 b.1 with
    | false =>
      -- incumbent b survives the comparison
      rw [cond_false]
      have hprefbc : strictlyPreferred st b c :=
        betterStat_false_pref st b c hbc hb
      have hlt2 : ∀ x ∈ t, b.2 < x.2 := fun x hx =>
        lt_trans hbc (hct x hx)
      obtain ⟨hmem, hpref⟩ := ih b hlt2 (List.pairwise_cons.mp hpw).2
      refine ⟨?_, ?_⟩
      · rcases hmem with h | h
        · exact Or.inl h
        · exact Or.inr (List.mem_cons_of_mem c h)
      · intro x hx hne
        rcases List.mem_cons.mp hx with rfl | hx2
        · exact hpref x (List.mem_cons_self x t) hne
        rcases List.mem_cons.mp hx2 with rfl | hx3
        · -- x is the rejected challenger c
          rcases hmem with hr | hr
          · rw [hr]; exact hprefbc
          · have hne2 : b ≠ pickFrom st b t := by
              intro he
              rw [← he] at hr
              exact absurd (hlt2 b hr) (lt_irrefl b.2)
            exact strictlyPreferred_trans st
              (hpref b (List.mem_cons_self b t) hne2) hprefbc
        · exact hpref x (List.mem_cons_of_mem b hx3) hne
    | true =>
      -- challenger c wins the comparison
      rw [cond_true]
      have hprefcb : strictlyPreferred st c b :=
        betterStat_true_pref st b c hb
      obtain ⟨hmem, hpref⟩ := ih c hct (List.pairwise_cons.mp hpw).2
      refine ⟨?_, ?_⟩
      · rcases hmem with h | h
        · exact Or.inr (by rw [h]; exact List.mem_cons_self c t)
        · exact Or.inr (List.mem_cons_of_mem c h)
      · intro x hx hne
        rcases List.mem_cons.mp hx with rfl | hx2
        · -- x is the rejected incumbent b
          rcases hmem with hr | hr
          · rw [hr]; exact hprefcb
          · have hne2 : c ≠ pickFrom st c t := by
              intro he
              rw [← he] at hr
              exact absurd (hct c hr) (lt_irrefl c.2)
            exact strictlyPreferred_trans st
              (hpref c (List.mem_cons_self c t) hne2) hprefcb
        · exact hpref x hx2 hne

/-- Catalog annotated with its fixed positions 0..7. -/
def catalogIndexed : List (Strategy × Nat) :=
  [(gentle_reminder, 0), (accountability, 1), (streak_gamification, 2),
   (social_comparison, 3), (loss_aversion, 4), (reward_preview, 5),
   (identity_reinforcement, 6), (micro_commitment, 7)]

/-- Winning (strategy, index) pair of the exploitation scan. -/
def bestPair (st : Snapshot) : Strategy × Nat :=
  pickFrom st (gentle_reminder, 0) catalogIndexed.tail

/-- Modelled from the spec: the exploitation choice of `BanditPolicy`
(spec section 4.1) — the strategy with the highest effectiveness score,
ties broken first by fewest pulls, then by catalog order. -/
def greedyBest (st : Snapshot) : Strategy :=
  (bestPair st).1

/-- Modelled from the spec: `BanditPolicy.select` (spec section 4.1); the
backend bandit module (`services/experiment_engine.py`) is not under
`src/`. The injected random source supplies one drawn value `r` in `[0,1)`
for the epsilon test and a uniform index `u` for the uniform branches.
While exploring, selection is uniform among under-sampled strategies,
degrading to the optimizing branch when none remain; while optimizing, one
drawn value below `EPSILON` selects uniformly among all 8 strategies and
otherwise the exploitation choice is returned. -/
def select (st : Snapshot) (phase : ExperimentPhase) (r : ℚ) (u : Fin 8) :
    Strategy :=
  match phase with
  | .exploring =>
    match catalog.filter
        (fun s => (st s).total_interventions < MIN_EXPLORE_PULLS) with
    | [] => if r < EPSILON then catalogGet u else greedyBest st
    | a :: l =>
      (a :: l).get ⟨u.val % (a :: l).length, Nat.mod_lt _ (Nat.succ_pos _)⟩
  | .optimizing => if r < EPSILON then catalogGet u else greedyBest st

/-- Row of the `interventions` table
(`src/resolution-lab-project-plan.md`, lines 465-473 and 1372-1380); the
strategy column is TEXT, so unknown identifiers are representable. -/
structure InterventionRow where
  id : String
  user_id : String
  goal_id : String
  strategy : String
  message : String
  sent_at : Int
deriving DecidableEq, Repr

/-- Row of the `outcomes` table
(`src/resolution-lab-project-plan.md`, lines 476-485 and 1383-1392). -/
structure OutcomeRow where
  id : String
  intervention_id : String
  user_id : String
  goal_id : String
  completed : Bool
  response_time_seconds : Option Int
  user_feedback : Option String
  recorded_at : Int
deriving DecidableEq, Repr

/-- Constraints the `outcomes` DDL declares over a table state, given the
id sets of the referenced tables: a primary key on `id` and foreign keys on
`intervention_id`, `user_id` and `goal_id`. NOT NULL columns are enforced
by the row types. The DDL declares no uniqueness on `intervention_id`. -/
def outcomesTableOk (interventionIds userIds goalIds : List String)
    (rows : List OutcomeRow) : Prop :=
  (rows.map fun r => r.id).Nodup ∧
    ∀ r ∈ rows, r.intervention_id ∈ interventionIds ∧
      r.user_id ∈ userIds ∧ r.goal_id ∈ goalIds

instance (i u g : List String) (rows : List OutcomeRow) :
    Decidable (outcomesTableOk i u g rows) := by
  unfold outcomesTableOk
  infer_instance

/-- At-most-once scoring over an outcomes table state: no two rows
reference the same intervention. -/
def atMostOncePerIntervention (rows : List OutcomeRow) : Prop :=
  (rows.map fun r => r.intervention_id).Nodup

instance (rows : List OutcomeRow) :
    Decidable (atMostOncePerIntervention rows) := by
  unfold atMostOncePerIntervention
  infer_instance

/-- Strategy identifier string of each catalog strategy, matching the TS
union type and the plan strategy table. -/
def strategyName : Strategy → String
  | .gentle_reminder => "gentle_reminder"
  | .accountability => "accountability"
  | .streak_gamification => "streak_gamification"
  | .social_comparison => "social_comparison"
  | .loss_aversion => "loss_aversion"
  | .reward_preview => "reward_preview"
  | .identity_reinforcement => "identity_reinforcement"
  | .micro_commitment => "micro_commitment"

/-- Strategy identifier parsing at the TEXT boundary of the tables, per
the identifiers of `InterventionStrategy` in
`src/frontend/src/types/index.ts`. -/
def strategyOfString (s : String) : Option Strategy :=
  catalog.find? fun t => strategyName t == s

/-- Stored row keyed by (user, strategy), one per pair ever selected, per
the `user_strategy_stats` table and its `UNIQUE(user_id, strategy)`
constraint (`src/resolution-lab-project-plan.md`, lines 488-498). -/
structure StatsRow where
  user_id : String
  strategy : Strategy
  stat : StrategyStat
deriving DecidableEq, Repr

/-- Key match of a stored row against a (user, strategy) pair. -/
def rowKeyIs (u : String) (s : Strategy) (r : StatsRow) : Bool :=
  r.user_id == u && r.strategy == s

/-- Modelled from the spec: the write path of `StrategyStatsStore`
(spec section 4.3) over the `user_strategy_stats` table; the backend
service is not under `src/`. On first observation for a pair the zero
state is initialized and then updated; otherwise the existing row is
updated in place. -/
def storeUpdate (store : List StatsRow) (u : String) (s : Strategy)
    (o : Observation) : List StatsRow :=
  if store.any (rowKeyIs u s) then
    store.map fun r =>
      if rowKeyIs u s r then { r with stat := statUpdate r.stat o } else r
  else
    store ++ [{ user_id := u, strategy := s, stat := statUpdate zeroStat o }]

/-- Modelled from the spec: the read path of `StrategyStatsStore`
(spec sections 4.3 and 7); a missing row reads as the zero state, not an
error. -/
def storeRead (store : List StatsRow) (u : String) (s : Strategy) :
    StrategyStat :=
  match store.find? (rowKeyIs u s) with
  | some r => r.stat
  | none => zeroStat

/-- Number of stored rows carrying a given (user, strategy) key. -/
def keyCount (store : List StatsRow) (u : String) (s : Strategy) : Nat :=
  (store.filter (rowKeyIs u s)).length

/-- One requested stats write: user, strategy, observation. -/
def StatOp : Type := String × Strategy × Observation

/-- Replays a list of stats writes against a store. -/
def storeReplay (store : List StatsRow) (ops : List StatOp) :
    List StatsRow :=
  ops.foldl (fun st p => storeUpdate st p.1 p.2.1 p.2.2) store

/-- Whether some write in the list addresses the (user, strategy) pair. -/
def selectedIn (ops : List StatOp) (u : String) (s : Strategy) : Bool :=
  ops.any fun p => p.1 == u && p.2.1 == s

/-- Helper: updating a row in place never changes its key. -/
lemma rowKeyIs_set_stat (u : String) (s : Strategy) (r : StatsRow)
    (x : StrategyStat) : rowKeyIs u s { r with stat := x } = rowKeyIs u s r := by
  simp [rowKeyIs]

/-- Helper: the in-place map of `storeUpdate` preserves every key count. -/
lemma keyCount_map_set (store : List StatsRow) (u s u2 s2) (o : Observation) :
    keyCount (store.map fun r =>
      if rowKeyIs u s r then { r with stat := statUpdate r.stat o } else r)
        u2 s2 = keyCount store u2 s2 := by
  induction store with
  | nil => rfl
  | cons r t ih =>
    simp only [keyCount, List.map_cons, List.filter_cons] at ih ⊢
    by_cases h : rowKeyIs u s r
    · rw [if_pos h, rowKeyIs_set_stat]
      by_cases h2 : rowKeyIs u2 s2 r <;> simp [h2, ih]
    · rw [if_neg h]
      by_cases h2 : rowKeyIs u2 s2 r <;> simp [h2, ih]

/-- Helper: no row carries a key exactly when its count is zero. -/
lemma any_key_eq_false_iff (store : List StatsRow) (u : String)
    (s : Strategy) : store.any (rowKeyIs u s) = false ↔
      keyCount store u s = 0 := by
  induction store with
  | nil => simp [keyCount]
  | cons r t ih =>
    simp only [List.any_cons, keyCount, List.filter_cons] at ih ⊢
    by_cases h : rowKeyIs u s r <;> simp [h, ih]

/-- Helper: key counts after one store write — the addressed key rises to
one (from at most one), every other key is untouched. -/
lemma keyCount_storeUpdate (store : List StatsRow) (u : String)
    (s : Strategy) (o : Observation) (u2 : String) (s2 : Strategy) :
    keyCount (storeUpdate store u s o) u2 s2 =
      if u2 = u ∧ s2 = s then
        (if keyCount store u s = 0 then 1 else keyCount store u s)
      else keyCount store u2 s2 := by
  unfold storeUpdate
  cases hany : store.any (rowKeyIs u s) with
  | false =>
    have h0 : keyCount store u s = 0 := (any_key_eq_false_iff store u s).mp hany
    rw [if_neg Bool.false_ne_true]
    simp only [keyCount, List.filter_append, List.length_append,
      List.filter_cons, List.filter_nil]
    by_cases hk : u2 = u ∧ s2 = s
    · obtain ⟨rfl, rfl⟩ := hk
      have hrow : rowKeyIs u2 s2
          { user_id := u2, strategy := s2, stat := statUpdate zeroStat o } =
          true := by simp [rowKeyIs]
      rw [hrow, if_pos (show u2 = u2 ∧ s2 = s2 from ⟨rfl, rfl⟩)]
      simp only [keyCount] at h0
      simp [h0]
    · have hrow : rowKeyIs u2 s2
          { user_id := u, strategy := s, stat := statUpdate zeroStat o } =
          false := by
        simp only [rowKeyIs, Bool.and_eq_false_iff, beq_eq_false_iff_ne, Ne]
        rcases not_and_or.mp hk with h | h
        · exact Or.inl fun he => h he.symm
        · exact Or.inr fun he => h he.symm
      rw [hrow, if_neg hk]
      simp
  | true =>
    rw [if_pos rfl, keyCount_map_set]
    have h1 : keyCount store u s ≠ 0 := by
      intro h0
      rw [(any_key_eq_false_iff store u s).mpr h0] at hany
      exact Bool.false_ne_true hany
    by_cases hk : u2 = u ∧ s2 = s
    · obtain ⟨rfl, rfl⟩ := hk
      rw [if_pos (show u2 = u2 ∧ s2 = s2 from ⟨rfl, rfl⟩), if_neg h1]
    · rw [if_neg hk]

/-- Helper: replaying writes keeps every key count at one once reached,
raises an addressed key to one, and leaves unaddressed keys alone. -/
lemma keyCount_storeReplay (ops : List StatOp) : ∀ store u s,
    keyCount store u s ≤ 1 →
    keyCount (storeReplay store ops) u s =
      if selectedIn ops u s then 1 else keyCount store u s := by
  induction ops with
  | nil => intro store u s _; simp [storeReplay, selectedIn]
  | cons p t ih =>
    intro store u s hle
    have hstep := keyCount_storeUpdate store p.1 p.2.1 p.2.2 u s
    have hle2 : keyCount (storeUpdate store p.1 p.2.1 p.2.2) u s ≤ 1 := by
      rw [hstep]
      by_cases hk : u = p.1 ∧ s = p.2.1
      · obtain ⟨rfl, rfl⟩ := hk
        rw [if_pos (show p.1 = p.1 ∧ p.2.1 = p.2.1 from ⟨rfl, rfl⟩)]
        by_cases h0 : keyCount store p.1 p.2.1 = 0
        · rw [if_pos h0]
        · rw [if_neg h0]; exact hle
      · rw [if_neg hk]; exact hle
    have hrep : storeReplay store (p :: t) =
        storeReplay (storeUpdate store p.1 p.2.1 p.2.2) t := by
      simp [storeReplay]
    rw [hrep, ih _ u s hle2, hstep]
    by_cases hsel : selectedIn t u s = true
    · have hselc : selectedIn (p :: t) u s = true := by
        simp only [selectedIn, List.any_cons, Bool.or_eq_true]
        exact Or.inr (by simpa [selectedIn] using hsel)
      rw [if_pos hsel, if_pos hselc]
    · have hsel0 : selectedIn t u s = false := by
        revert hsel; cases selectedIn t u s <;> simp
      rw [if_neg hsel]
      by_cases hk : u = p.1 ∧ s = p.2.1
      · obtain ⟨rfl, rfl⟩ := hk
        have hselc : selectedIn (p :: t) p.1 p.2.1 = true := by
          simp [selectedIn, List.any_cons]
        rw [if_pos hselc, if_pos (show p.1 = p.1 ∧ p.2.1 = p.2.1 from ⟨rfl, rfl⟩)]
        by_cases h0 : keyCount store p.1 p.2.1 = 0
        · rw [if_pos h0]
        · rw [if_neg h0]; omega
      · have hselc : selectedIn (p :: t) u s = false := by
          simp only [selectedIn, List.any_cons, Bool.or_eq_false_iff]
          refine ⟨?_, by simpa [selectedIn] using hsel0⟩
          simp only [Bool.and_eq_false_iff, beq_eq_false_iff_ne, Ne]
          rcases not_and_or.mp hk with h | h
          · exact Or.inl fun he => h he.symm
          · exact Or.inr fun he => h he.symm
        rw [hselc, if_neg Bool.false_ne_true, if_neg hk]

/-- Modelled from the spec: sentiment defaulting of the Evaluate stage
(spec sections 4.2, 4.6 and 7); the backend orchestrator is not under
`src/`. Absent feedback or a failed judge yields no sentiment, and the
reward is computed with the `neutral` default. -/
def reward_with_default_sentiment (completed : Bool) (t : ℚ)
    (sentiment : Option UserSentiment) : ℚ :=
  intervention_effectiveness_score completed t
    (sentiment.getD UserSentiment.neutral)

/-- Application state over the persistent tables the outcome path touches. -/
structure AppState where
  interventions : List InterventionRow
  outcomes : List OutcomeRow
  stats : List StatsRow
deriving DecidableEq, Repr

/-- Validation errors of the outcome-recording path (spec section 7). -/
inductive RecordError where
  | unknownIntervention
  | alreadyScored
  | negativeResponseTime
  | unknownStrategy
deriving DecidableEq, Repr

/-- Modelled from the spec: `record_outcome` (spec sections 6 and 7); the
backend router holding this code (`routers/interventions.py`) is not under
`src/`. The call validates that the intervention exists, has not been
scored, carries a known strategy identifier, and that the response time is
nonnegative; any violation is rejected with a validation error and, the
function being pure, an error result carries no changed state. On success
one outcome row is appended and the stats row of the intervention strategy
is updated. -/
def recordOutcome (st : AppState) (newId : String) (interventionId : String)
    (completed : Bool) (response_time_seconds : Int)
    (sentiment : Option UserSentiment) (feedback : Option String)
    (now : Int) : Except RecordError AppState :=
  match st.interventions.find? (fun iv => iv.id == interventionId) with
  | none => Except.error RecordError.unknownIntervention
  | some iv =>
    if st.outcomes.any (fun o => o.intervention_id == interventionId) then
      Except.error RecordError.alreadyScored
    else if response_time_seconds < 0 then
      Except.error RecordError.negativeResponseTime
    else
      match strategyOfString iv.strategy with
      | none => Except.error RecordError.unknownStrategy
      | some strat =>
        Except.ok
          { st with
            outcomes := st.outcomes ++
              [{ id := newId
                 intervention_id := interventionId
                 user_id := iv.user_id
                 goal_id := iv.goal_id
                 completed := completed
                 response_time_seconds := some response_time_seconds
                 user_feedback := feedback
                 recorded_at := now }]
            stats := storeUpdate st.stats iv.user_id strat
              { completed := completed
                response_time_seconds := (response_time_seconds : ℚ)
                sentiment := sentiment.getD UserSentiment.neutral } }

/-- Row of the `strategy_stats` array of `UserInsights` and
`SimulationResult` (`src/frontend/src/types/index.ts`, lines 107-114 and
176-182), as consumed by the experiment page. -/
structure StrategyStats where
  strategy : Strategy
  total_interventions : Nat
  successful_completions : Nat
  completion_rate : ℚ
  effectiveness_score : ℚ
deriving DecidableEq, Repr

/-- Stable descending insertion by `completion_rate`: a row entering from
the left goes before every already-placed row whose rate is not larger. -/
def insertByCompletionDesc (a : StrategyStats) :
    List StrategyStats → List StrategyStats
  | [] => [a]
  | b :: l =>
    if b.completion_rate ≤ a.completion_rate then a :: b :: l
    else b :: insertByCompletionDesc a l

/-- Stable sort by `completion_rate` descending, the order produced by
`.sort((a, b) => b.completion_rate - a.completion_rate)` in
`src/frontend/src/app/experiment/page.tsx` (lines 59 and 236; the
JavaScript array sort is stable). -/
def sortByCompletionDesc : List StrategyStats → List StrategyStats
  | [] => []
  | a :: l => insertByCompletionDesc a (sortByCompletionDesc l)

/-- Row order of the `chartData` pipeline in
`src/frontend/src/app/experiment/page.tsx` (lines 57-59): keep rows with
positive sample counts, then sort by `completion_rate` descending. The
subsequent `.map` to chart entries preserves this order. -/
def chartOrder (rows : List StrategyStats) : List StrategyStats :=
  sortByCompletionDesc (rows.filter fun r => 0 < r.total_interventions)

/-- Ranked sequence of (strategy, effectiveness score, pulls) as displayed
by the experiment page, in chart order. -/
def rankSeq (rows : List StrategyStats) : List (Strategy × ℚ × Nat) :=
  (chartOrder rows).map fun r =>
    (r.strategy, r.effectiveness_score, r.total_interventions)

/-- Helper: inserting permutes the row onto the list. -/
lemma insertByCompletionDesc_perm (a : StrategyStats) (l : List StrategyStats) :
    (insertByCompletionDesc a l).Perm (a :: l) := by
  induction l with
  | nil => exact List.Perm.refl _
  | cons b t ih =>
    simp only [insertByCompletionDesc]
    by_cases h : b.completion_rate ≤ a.completion_rate
    · rw [if_pos h]
    · rw [if_neg h]
      exact (List.Perm.cons b ih).trans (List.Perm.swap a b t)

/-- Helper: the stable sort permutes its input. -/
lemma sortByCompletionDesc_perm (l : List StrategyStats) :
    (sortByCompletionDesc l).Perm l := by
  induction l with
  | nil => exact List.Perm.refl _
  | cons a t ih =>
    exact (insertByCompletionDesc_perm a (sortByCompletionDesc t)).trans
      (List.Perm.cons a ih)

/-- Helper: inserting into a descending list keeps it descending. -/
lemma insertByCompletionDesc_sorted (a : StrategyStats)
    (l : List StrategyStats)
    (h : l.Pairwise fun x y => y.completion_rate ≤ x.completion_rate) :
    (insertByCompletionDesc a l).Pairwise
      fun x y => y.completion_rate ≤ x.completion_rate := by
  induction l with
  | nil => simp [insertByCompletionDesc]
  | cons b t ih =>
    obtain ⟨hb, ht⟩ := List.pairwise_cons.mp h
    simp only [insertByCompletionDesc]
    by_cases hc : b.completion_rate ≤ a.completion_rate
    · rw [if_pos hc]
      refine List.pairwise_cons.mpr ⟨?_, h⟩
      intro y hy
      rcases List.mem_cons.mp hy with rfl | hy2
      · exact hc
      · exact le_trans (hb y hy2) hc
    · rw [if_neg hc]
      refine List.pairwise_cons.mpr ⟨?_, ih ht⟩
      intro y hy
      have hy2 := (insertByCompletionDesc_perm a t).mem_iff.mp hy
      rcases List.mem_cons.mp hy2 with rfl | hy3
      · exact le_of_lt (lt_of_not_le hc)
      · exact hb y hy3

/-- Helper: the stable sort produces a descending list. -/
lemma sortByCompletionDesc_sorted (l : List StrategyStats) :
    (sortByCompletionDesc l).Pairwise
      fun x y => y.completion_rate ≤ x.completion_rate := by
  induction l with
  | nil => simp [sortByCompletionDesc]
  | cons a t ih => exact insertByCompletionDesc_sorted a _ ih

/-- Helper: rows of one completion rate keep their relative order through
an insertion (stability at each rate class). -/
lemma insertByCompletionDesc_filter (k : ℚ) (a : StrategyStats)
    (l : List StrategyStats) :
    (insertByCompletionDesc a l).filter (fun r => r.completion_rate == k) =
      if a.completion_rate == k then
        a :: l.filter (fun r => r.completion_rate == k)
      else l.filter (fun r => r.completion_rate == k) := by
  induction l with
  | nil =>
    simp only [insertByCompletionDesc, List.filter_cons, List.filter_nil]
  | cons b t ih =>
    simp only [insertByCompletionDesc]
    by_cases hc : b.completion_rate ≤ a.completion_rate
    · rw [if_pos hc]
      simp only [List.filter_cons]
    · rw [if_neg hc]
      have hab : a.completion_rate < b.completion_rate := lt_of_not_le hc
      simp only [List.filter_cons, ih]
      by_cases ha : a.completion_rate == k
      · have hak : a.completion_rate = k := by simpa using ha
        have hbk : (b.completion_rate == k) = false := by
          simp only [beq_eq_false_iff_ne, Ne]
          intro hbe
          rw [hbe, ← hak] at hab
          exact lt_irrefl _ hab
        simp [ha, hbk]
      · have ha2 : (a.completion_rate == k) = false := by
          revert ha; cases a.completion_rate == k <;> simp
        simp [ha2]

/-- Helper: rows of one completion rate keep their relative order through
the whole stable sort. -/
lemma sortByCompletionDesc_filter (k : ℚ) (l : List StrategyStats) :
    (sortByCompletionDesc l).filter (fun r => r.completion_rate == k) =
      l.filter (fun r => r.completion_rate == k) := by
  induction l with
  | nil => rfl
  | cons a t ih =>
    simp only [sortByCompletionDesc, insertByCompletionDesc_filter,
      List.filter_cons, ih]

/-- Helper: every catalog strategy is reachable by some uniform index. -/
lemma catalogGet_surjective : ∀ s : Strategy, ∃ v : Fin 8, catalogGet v = s := by
  intro s
  cases s
  · exact ⟨0, rfl⟩
  · exact ⟨1, rfl⟩
  · exact ⟨2, rfl⟩
  · exact ⟨3, rfl⟩
  · exact ⟨4, rfl⟩
  · exact ⟨5, rfl⟩
  · exact ⟨6, rfl⟩
  · exact ⟨7, rfl⟩

/-- C2: for completed = true, response time 1800 seconds and positive
sentiment, the reward is exactly 0.9, that is
0.6 * 1 + 0.2 * (1 - 1800 / 3600) + 0.2 * 1 with the fixed weights
0.6, 0.2, 0.2. -/
theorem c2_reward_scenario_b :
    intervention_effectiveness_score true 1800 UserSentiment.positive = 0.9 ∧
      (0.9 : ℚ) = 0.6 * 1 + 0.2 * (1 - 1800 / 3600) + 0.2 * 1 := by
  constructor
  · norm_num [intervention_effectiveness_score, sentimentTable]
  · norm_num

/-- C3: for every valid input (boolean completion, nonnegative response
time, one of the three sentiments) the computed reward lies in the closed
interval [0, 1]. -/
theorem c3_reward_in_unit_interval (c : Bool) (t : ℚ) (s : UserSentiment)
    (ht : 0 ≤ t) :
    0 ≤ intervention_effectiveness_score c t s ∧
      intervention_effectiveness_score c t s ≤ 1 :=
  reward_bounds c t s ht

/-- Witness for C3 at completed = true, response time 1800, positive. -/
theorem c3_witness :
    (0 : ℚ) ≤ 1800 ∧
      (0 ≤ intervention_effectiveness_score true 1800 UserSentiment.positive ∧
        intervention_effectiveness_score true 1800 UserSentiment.positive ≤ 1) :=
  ⟨by norm_num,
    c3_reward_in_unit_interval true 1800 UserSentiment.positive (by norm_num)⟩

/-- C4: the cumulative-mean update makes the stored effectiveness score
the arithmetic mean of all observed rewards, so applying the same multiset
of (completed, response time, sentiment) observations in any order yields
the same final effectiveness score. -/
theorem c4_cumulative_mean_order_independent (l1 l2 : List Observation)
    (h : l1.Perm l2) :
    (applyAll zeroStat l1).effectiveness_score =
        (l1.map obsReward).sum / (l1.length : ℚ) ∧
      (applyAll zeroStat l1).effectiveness_score =
        (applyAll zeroStat l2).effectiveness_score := by
  refine ⟨applyAll_mean l1, ?_⟩
  rw [applyAll_mean l1, applyAll_mean l2, h.length_eq,
    (h.map obsReward).sum_eq]

/-- Witness for C4 on a two-observation multiset in both orders. -/
theorem c4_witness :
    (([⟨true, 0, UserSentiment.positive⟩, ⟨false, 3600, UserSentiment.negative⟩] :
        List Observation).Perm
      [⟨false, 3600, UserSentiment.negative⟩, ⟨true, 0, UserSentiment.positive⟩]) ∧
      (applyAll zeroStat
          [⟨true, 0, UserSentiment.positive⟩,
            ⟨false, 3600, UserSentiment.negative⟩]).effectiveness_score =
        (applyAll zeroStat
          [⟨false, 3600, UserSentiment.negative⟩,
            ⟨true, 0, UserSentiment.positive⟩]).effectiveness_score :=
  ⟨by decide,
    (c4_cumulative_mean_order_independent _ _ (by decide)).2⟩

/-- C5: the phase recomputed from the snapshot is monotonic — once it is
optimizing, no later sequence of stats updates makes it exploring again. -/
theorem c5_phase_monotonic (snap : Snapshot)
    (ops : List (Strategy × Observation))
    (h : experiment_phase snap = ExperimentPhase.optimizing) :
    experiment_phase (snapApply snap ops) = ExperimentPhase.optimizing := by
  induction ops generalizing snap with
  | nil => exact h
  | cons p t ih =>
    simp only [snapApply, List.foldl_cons]
    exact ih (snapUpdate snap p.1 p.2) (snapUpdate_phase snap p.1 p.2 h)

/-- Witness for C5: a snapshot with 3 pulls per strategy (24 total, over
the threshold of 20) is optimizing, and stays optimizing after one more
update. -/
theorem c5_witness :
    experiment_phase (fun _ => (⟨3, 2, 60, 0.5⟩ : StrategyStat)) =
        ExperimentPhase.optimizing ∧
      experiment_phase (snapApply (fun _ => (⟨3, 2, 60, 0.5⟩ : StrategyStat))
        [(Strategy.accountability, ⟨true, 30, UserSentiment.positive⟩)]) =
        ExperimentPhase.optimizing :=
  ⟨by decide, c5_phase_monotonic _ _ (by decide)⟩

/-- C1: while optimizing, the policy consumes the one drawn random value;
EPSILON is a constant in [0.1, 0.2]; a draw below EPSILON selects via the
uniform index, which can reach all 8 catalog strategies (the current best
included); otherwise the policy returns the exploitation choice, which is
a catalog strategy strictly preferred to every other one under the order:
highest effectiveness score, then fewest pulls, then catalog position. -/
theorem c1_bandit_optimizing_select (st : Snapshot) (r : ℚ) (u : Fin 8) :
    ((1 : ℚ) / 10 ≤ EPSILON ∧ EPSILON ≤ 2 / 10) ∧
      (r < EPSILON →
        select st ExperimentPhase.optimizing r u = catalogGet u ∧
          ∀ s : Strategy, ∃ v : Fin 8,
            select st ExperimentPhase.optimizing r v = s) ∧
      (EPSILON ≤ r →
        select st ExperimentPhase.optimizing r u = greedyBest st ∧
          bestPair st ∈ catalogIndexed ∧
          ∀ p ∈ catalogIndexed, p ≠ bestPair st →
            strictlyPreferred st (bestPair st) p) := by
  refine ⟨⟨by norm_num [EPSILON], by norm_num [EPSILON]⟩, ?_, ?_⟩
  · intro hr
    constructor
    · simp only [select]
      rw [if_pos hr]
    · intro s
      obtain ⟨v, hv⟩ := catalogGet_surjective s
      refine ⟨v, ?_⟩
      simp only [select]
      rw [if_pos hr, hv]
  · intro hr
    have hnot : ¬ r < EPSILON := not_lt.mpr hr
    obtain ⟨hmem, hpref⟩ := pickFrom_spec st catalogIndexed.tail
      (Strategy.gentle_reminder, 0) (by decide) (by decide)
    have hcons : (Strategy.gentle_reminder, 0) :: catalogIndexed.tail =
        catalogIndexed := rfl
    refine ⟨?_, ?_, ?_⟩
    · simp only [select]
      rw [if_neg hnot]
    · unfold bestPair
      rcases hmem with h | h
      · rw [h]; decide
      · rw [← hcons]
        exact List.mem_cons_of_mem _ h
    · intro p hp hne
      refine hpref p ?_ ?_
      · rw [hcons]; exact hp
      · exact hne
/-- Witness for C1: with the all-zero snapshot, a draw of 0 takes the
uniform branch at index 2 and a draw of one half takes the exploitation
branch, which lands on the first catalog strategy. -/
theorem c1_witness :
    select (fun _ => zeroStat) ExperimentPhase.optimizing 0 2 =
        Strategy.streak_gamification ∧
      select (fun _ => zeroStat) ExperimentPhase.optimizing (1 / 2) 0 =
        Strategy.gentle_reminder := by
  constructor
  · have h := (c1_bandit_optimizing_select (fun _ => zeroStat) 0 2).2.1
      (by norm_num [EPSILON])
    rw [h.1]; decide
  · have h := (c1_bandit_optimizing_select (fun _ => zeroStat) (1 / 2) 0).2.2
      (by norm_num [EPSILON])
    rw [h.1]; decide

/-- C6 counterexample: a two-row outcomes table that scores the same
intervention twice satisfies every constraint the outcomes DDL declares
(primary key on id, foreign keys), so at-most-once per intervention is not
enforced by a uniqueness constraint on intervention_id. -/
theorem c6_counterexample :
    outcomesTableOk ["i1"] ["u1"] ["g1"]
        [⟨"o1", "i1", "u1", "g1", true, some 60, none, 0⟩,
          ⟨"o2", "i1", "u1", "g1", false, some 90, none, 1⟩] ∧
      ¬ atMostOncePerIntervention
        [⟨"o1", "i1", "u1", "g1", true, some 60, none, 0⟩,
          ⟨"o2", "i1", "u1", "g1", false, some 90, none, 1⟩] := by
  constructor
  · decide
  · decide

/-- C6 amended: the at-most-once property is enforced by the application
layer, not by the schema — recording an outcome for an already-scored
intervention is rejected with a validation error, and a successful record
preserves at-most-once per intervention over the outcomes table. -/
theorem c6_at_most_once_app_enforced (st : AppState)
    (newId interventionId : String) (completed : Bool) (rt : Int)
    (sentiment : Option UserSentiment) (feedback : Option String)
    (now : Int) :
    (st.outcomes.any (fun o => o.intervention_id == interventionId) = true →
      ∃ e, recordOutcome st newId interventionId completed rt sentiment
        feedback now = Except.error e) ∧
      ∀ st2, atMostOncePerIntervention st.outcomes →
        recordOutcome st newId interventionId completed rt sentiment
          feedback now = Except.ok st2 →
        atMostOncePerIntervention st2.outcomes := by
  constructor
  · intro hany
    unfold recordOutcome
    cases hf : st.interventions.find? (fun iv => iv.id == interventionId) with
    | none => exact ⟨RecordError.unknownIntervention, rfl⟩
    | some iv =>
      exact ⟨RecordError.alreadyScored, by dsimp only; rw [if_pos hany]⟩
  · intro st2 hnodup hok
    unfold recordOutcome at hok
    cases hf : st.interventions.find? (fun iv => iv.id == interventionId) with
    | none =>
      rw [hf] at hok
      dsimp only at hok
      exact Except.noConfusion hok
    | some iv =>
      rw [hf] at hok
      dsimp only at hok
      by_cases hany : st.outcomes.any
          (fun o => o.intervention_id == interventionId) = true
      · rw [if_pos hany] at hok
        exact Except.noConfusion hok
      · rw [if_neg hany] at hok
        by_cases hrt : rt < 0
        · rw [if_pos hrt] at hok
          exact Except.noConfusion hok
        · rw [if_neg hrt] at hok
          cases hstrat : strategyOfString iv.strategy with
          | none =>
            rw [hstrat] at hok
            exact Except.noConfusion hok
          | some strat =>
            rw [hstrat] at hok
            injection hok with hok2
            subst hok2
            simp only [atMostOncePerIntervention, List.map_append,
              List.map_cons, List.map_nil]
            rw [List.nodup_append]
            refine ⟨hnodup, List.nodup_singleton _, ?_⟩
            intro x hx hx2
            simp only [List.mem_singleton] at hx2
            obtain ⟨o, ho, hoid⟩ := List.mem_map.mp hx
            have htrue : st.outcomes.any
                (fun o2 => o2.intervention_id == interventionId) = true :=
              List.any_eq_true.mpr ⟨o, ho, by simp [hoid, hx2]⟩
            exact hany htrue

/-- Witness for C6 amended: with one outcome already recorded for the
intervention, a second submission is rejected. -/
theorem c6_witness :
    ∃ e, recordOutcome
        ⟨[⟨"i1", "u1", "g1", "accountability", "msg", 0⟩],
          [⟨"o1", "i1", "u1", "g1", true, some 60, none, 0⟩], []⟩
        "o2" "i1" false 90 none none 1 = Except.error e :=
  (c6_at_most_once_app_enforced
    ⟨[⟨"i1", "u1", "g1", "accountability", "msg", 0⟩],
      [⟨"o1", "i1", "u1", "g1", true, some 60, none, 0⟩], []⟩
    "o2" "i1" false 90 none none 1).1 (by decide)

/-- C7: with no sentiment available the reward is computed with the
neutral default, whose component is 0.5 — not zero and not a failure: the
returned reward equals the neutral-sentiment reward and lies in [0, 1]. -/
theorem c7_missing_sentiment_defaults_neutral (c : Bool) (t : ℚ)
    (ht : 0 ≤ t) :
    reward_with_default_sentiment c t none =
        intervention_effectiveness_score c t UserSentiment.neutral ∧
      sentimentTable ((none : Option UserSentiment).getD
        UserSentiment.neutral) = 0.5 ∧
      0 ≤ reward_with_default_sentiment c t none ∧
      reward_with_default_sentiment c t none ≤ 1 := by
  refine ⟨rfl, by norm_num [sentimentTable], ?_, ?_⟩
  · exact (reward_bounds c t UserSentiment.neutral ht).1
  · exact (reward_bounds c t UserSentiment.neutral ht).2

/-- Witness for C7 at completed = true, response time 0. -/
theorem c7_witness :
    (0 : ℚ) ≤ 0 ∧
      (reward_with_default_sentiment true 0 none =
          intervention_effectiveness_score true 0 UserSentiment.neutral ∧
        sentimentTable ((none : Option UserSentiment).getD
          UserSentiment.neutral) = 0.5 ∧
        0 ≤ reward_with_default_sentiment true 0 none ∧
        reward_with_default_sentiment true 0 none ≤ 1) :=
  ⟨le_refl 0, c7_missing_sentiment_defaults_neutral true 0 (le_refl 0)⟩

/-- C8: a submission with a negative response time, an unknown
intervention, an already-scored intervention, or an intervention carrying
an unknown strategy identifier is rejected with a validation error, and no
state is produced — no stats row is updated and no outcome recorded. -/
theorem c8_invalid_input_rejected (st : AppState)
    (newId interventionId : String) (completed : Bool) (rt : Int)
    (sentiment : Option UserSentiment) (feedback : Option String) (now : Int)
    (h : rt < 0 ∨
      st.interventions.find? (fun iv => iv.id == interventionId) = none ∨
      st.outcomes.any (fun o => o.intervention_id == interventionId) = true ∨
      (∃ iv, st.interventions.find? (fun iv2 => iv2.id == interventionId) =
          some iv ∧ strategyOfString iv.strategy = none)) :
    (∃ e, recordOutcome st newId interventionId completed rt sentiment
        feedback now = Except.error e) ∧
      ∀ st2, recordOutcome st newId interventionId completed rt sentiment
        feedback now ≠ Except.ok st2 := by
  have herr : ∃ e, recordOutcome st newId interventionId completed rt
      sentiment feedback now = Except.error e := by
    unfold recordOutcome
    cases hf : st.interventions.find? (fun iv => iv.id == interventionId) with
    | none => exact ⟨RecordError.unknownIntervention, rfl⟩
    | some iv2 =>
      by_cases hany2 : st.outcomes.any
          (fun o => o.intervention_id == interventionId) = true
      · exact ⟨RecordError.alreadyScored, by dsimp only; rw [if_pos hany2]⟩
      · by_cases hrt2 : rt < 0
        · exact ⟨RecordError.negativeResponseTime,
            by dsimp only; rw [if_neg hany2, if_pos hrt2]⟩
        · rcases h with hrt | hfind | hany | ⟨iv, hfind, hstrat⟩
          · exact absurd hrt hrt2
          · rw [hf] at hfind
            exact Option.noConfusion hfind
          · exact absurd hany hany2
          · rw [hf] at hfind
            injection hfind with he
            subst he
            exact ⟨RecordError.unknownStrategy,
              by dsimp only; rw [if_neg hany2, if_neg hrt2, hstrat]⟩
  obtain ⟨e, he⟩ := herr
  refine ⟨⟨e, he⟩, ?_⟩
  intro st2 h2
  rw [he] at h2
  exact Except.noConfusion h2

/-- Witness for C8: recording against an empty store is rejected because
the intervention does not exist. -/
theorem c8_witness :
    ∃ e, recordOutcome ⟨[], [], []⟩ "o1" "i1" true 10 none none 0 =
      Except.error e :=
  ((c8_invalid_input_rejected ⟨[], [], []⟩ "o1" "i1" true 10 none none 0
    (Or.inr (Or.inl rfl))).1)

/-- C9: replaying any sequence of stats writes from the empty store leaves
exactly one row per (user, strategy) pair ever selected and none for any
other pair, and reading a pair with no history returns the zero state
rather than an error. -/
theorem c9_one_row_per_pair_zero_state_read (ops : List StatOp) (u : String)
    (s : Strategy) :
    keyCount (storeReplay [] ops) u s =
        (if selectedIn ops u s then 1 else 0) ∧
      (selectedIn ops u s = false →
        storeRead (storeReplay [] ops) u s = zeroStat) := by
  have h := keyCount_storeReplay ops [] u s (by simp [keyCount])
  constructor
  · simpa [keyCount] using h
  · intro hsel
    have h0 : keyCount (storeReplay [] ops) u s = 0 := by
      rw [h, hsel]
      simp [keyCount]
    have h0l : ((storeReplay [] ops).filter (rowKeyIs u s)).length = 0 := h0
    have hfil : (storeReplay [] ops).filter (rowKeyIs u s) = [] :=
      List.length_eq_zero.mp h0l
    have hfind : (storeReplay [] ops).find? (rowKeyIs u s) = none := by
      rw [List.find?_eq_none]
      intro r hr hkey
      have hmem : r ∈ (storeReplay [] ops).filter (rowKeyIs u s) :=
        List.mem_filter.mpr ⟨hr, hkey⟩
      rw [hfil] at hmem
      exact absurd hmem (List.not_mem_nil r)
    simp [storeRead, hfind]

/-- Witness for C9: one write creates exactly one row for its pair, and an
untouched pair reads as the zero state. -/
theorem c9_witness :
    keyCount (storeReplay []
        [("u1", Strategy.accountability, ⟨true, 10, UserSentiment.positive⟩)])
        "u1" Strategy.accountability = 1 ∧
      storeRead (storeReplay []
        [("u1", Strategy.accountability, ⟨true, 10, UserSentiment.positive⟩)])
        "u2" Strategy.gentle_reminder = zeroStat := by
  constructor
  · have h := (c9_one_row_per_pair_zero_state_read
      [("u1", Strategy.accountability, ⟨true, 10, UserSentiment.positive⟩)]
      "u1" Strategy.accountability).1
    rw [h]
    decide
  · exact (c9_one_row_per_pair_zero_state_read
      [("u1", Strategy.accountability, ⟨true, 10, UserSentiment.positive⟩)]
      "u2" Strategy.gentle_reminder).2 (by decide)

/-- C10 counterexample: on a snapshot whose completion-rate order and
effectiveness-score order disagree (the row fields are arbitrary snapshot
values of the frontend row type), the experiment page ranks by completion
rate, so the displayed sequence is not sorted by effectiveness score
descending and its head is not the effectiveness leader. -/
theorem c10_counterexample :
    rankSeq [⟨Strategy.accountability, 2, 0, 0, 1⟩,
        ⟨Strategy.gentle_reminder, 2, 2, 1, 0⟩] =
      [(Strategy.gentle_reminder, 0, 2),
        (Strategy.accountability, 1, 2)] ∧
      ¬ List.Pairwise (fun a b => b.2.1 ≤ a.2.1)
        (rankSeq [⟨Strategy.accountability, 2, 0, 0, 1⟩,
          ⟨Strategy.gentle_reminder, 2, 2, 1, 0⟩]) := by
  constructor
  · decide
  · decide

/-- C10 amended: the experiment page returns the positive-sample rows of
the snapshot sorted by completion rate descending, ties keeping their
snapshot order (stable sort), as a permutation of those rows. -/
theorem c10_rank_by_completion_rate (rows : List StrategyStats) :
    (chartOrder rows).Pairwise
        (fun a b => b.completion_rate ≤ a.completion_rate) ∧
      (chartOrder rows).Perm
        (rows.filter fun r => 0 < r.total_interventions) ∧
      ∀ k : ℚ, (chartOrder rows).filter (fun r => r.completion_rate == k) =
        (rows.filter fun r => 0 < r.total_interventions).filter
          (fun r => r.completion_rate == k) :=
  ⟨sortByCompletionDesc_sorted _, sortByCompletionDesc_perm _,
    fun k => sortByCompletionDesc_filter k _⟩

end ResolutionLab
